import Mathlib

/-!
# Verification of gokogiri's document/fragment/xpath lifecycle layer

A shallow embedding of the Go sources:

* `xpath` package (`XPath` struct, `NewXPath`, `Evaluate`, `Free`),
* `xml` package document lifecycle (`XmlDocument`, `Parse`,
  `CreateEmptyDocument`, `NewDocument`, `AddUnlinkedNode`, `Free`),
* `xml` fragment parsing (`ParseFragment`).

C pointers that may be `nil` are embedded as `Option`; dereferencing a
`nil` pointer is embedded as the `none` result of an `Option`-returning
function (a crash).  Calls into the external libxml2 engine are embedded
as explicit oracle arguments, and the release/allocation side effects the
claims speak about are recorded in an explicit event trace.
-/

namespace Gokogiri

/-- Observable lifecycle events emitted by the embedded operations:
native-side allocations and releases, node unlinking and tracking. -/
inductive Event where
  | setContextNode (n : Nat)
  | allocResult
  | freeResultObj
  | freeContext
  | removeFragment (i : Nat)
  | freeNode (p : Nat)
  | freeTree
  | unlinkNode (p : Nat)
  | collectChild (p : Nat)
  | trackDetached (p : Nat)
deriving DecidableEq, Repr

/-! ## The xpath package (src/unnamed/part_000) -/

/-- Embedding of libxml2's `xmlXPathObject`: the claims only inspect its
`nodesetval` field (`nil`, or a node table `nodeTab` of length `nodeNr`). -/
structure XPathObject where
  nodesetval : Option (List Nat)
deriving DecidableEq, Repr

/-- Embedding of libxml2's `xmlXPathContext`: the document it was created
for (`xmlXPathNewContext`'s argument) and the mutable context node. -/
structure XPathContext where
  doc : Nat
  node : Option Nat
deriving DecidableEq, Repr

/-- Embedding of the Go `XPath` struct: two nullable native pointers. -/
structure XPath where
  ContextPtr : Option XPathContext
  ResultPtr : Option XPathObject
deriving DecidableEq, Repr

/-- Embedding of libxml2's `xmlXPathNewContext`: allocates a fresh
evaluation context bound to the given document, with no context node. -/
def xmlXPathNewContext (docPtr : Nat) : XPathContext :=
  { doc := docPtr, node := none }

/-- Embedding of `NewXPath` (part_000 lines 24–31): a `nil` document
pointer returns the zero value `nil` engine without allocating anything;
otherwise the engine holds a fresh bound evaluation context. -/
def NewXPath (docPtr : Option Nat) : Option XPath :=
  match docPtr with
  | none => none
  | some d => some { ContextPtr := some (xmlXPathNewContext d), ResultPtr := none }

/-- The slice-copy of part_000 lines 59–66: the nodes of a result's node
set, the empty slice when the node set is `nil` or empty. -/
def nodesOfResult (result : XPathObject) : List Nat :=
  match result.nodesetval with
  | some nodeTab => if nodeTab.length > 0 then nodeTab else []
  | none => []

/-- The release of a previously retained result (part_000 lines 55–57). -/
def freeOldResult (x : XPath) : List Event :=
  match x.ResultPtr with
  | some _ => [Event.freeResultObj]
  | none => []

/-- Embedding of `XPath.Evaluate` (part_000 lines 50–68).  A `nil`
`nodePtr` returns the zero-value empty slice at once.  Otherwise the code
writes `xpath.ContextPtr.node`, which crashes (`none`) when `ContextPtr`
is `nil`; then any previously retained result object is freed, the
compiled expression (oracle `expr`, a function of the context node) is
evaluated and retained, and its node set is copied out in order. -/
def XPath.Evaluate (x : XPath) (nodePtr : Option Nat) (expr : Nat → XPathObject) :
    Option (List Nat × List Event × XPath) :=
  match nodePtr with
  | none => some ([], [], x)
  | some n =>
    match x.ContextPtr with
    | none => none
    | some ctx =>
      some (nodesOfResult (expr n),
            Event.setContextNode n :: freeOldResult x ++ [Event.allocResult],
            { ContextPtr := some { ctx with node := some n }, ResultPtr := some (expr n) })

/-- Embedding of `XPath.Free` (part_000 lines 70–79): release the
evaluation context if still present, then the retained result object if
still present, `nil`-ing each field after its release. -/
def XPath.Free (x : XPath) : List Event × XPath :=
  let step1 : List Event × XPath :=
    match x.ContextPtr with
    | some _ => ([Event.freeContext], { x with ContextPtr := none })
    | none => ([], x)
  match step1.2.ResultPtr with
  | some _ => (step1.1 ++ [Event.freeResultObj], { step1.2 with ResultPtr := none })
  | none => step1

/-- Iterated evaluation on one engine instance (each call with a present
context node), threading the state and concatenating the event traces.
A crash (`none`) of any single evaluation propagates. -/
def XPath.EvalMany (x : XPath) : List (Nat × (Nat → XPathObject)) → Option (List Event × XPath)
  | [] => some ([], x)
  | (n, e) :: rest =>
    match x.Evaluate (some n) e with
    | none => none
    | some (_, evts, x') =>
      match x'.EvalMany rest with
      | none => none
      | some (tr, x'') => some (evts ++ tr, x'')

/-- Number of result objects retained by the engine (0 or 1 by the very
shape of the state: a single nullable `ResultPtr` field). -/
def XPath.retained (x : XPath) : Nat :=
  match x.ResultPtr with
  | some _ => 1
  | none => 0

/-! ## The xml package: documents (src/unnamed/part_001) -/

/-- Embedding of a libxml2 document tree handle (`xmlDoc`).  The claims
only observe it through `xmlDocGetRootElement`, embedded as the
`rootElement` field. -/
structure Tree where
  rootElement : Option Nat
deriving DecidableEq, Repr

/-- Modelled from the spec: the external helper `newEmptyXmlDoc` (spec
§4.1 `createEmpty`) builds "a document containing only a synthetic empty
tree", i.e. a tree with no root element. -/
def newEmptyXmlDoc : Tree :=
  { rootElement := none }

/-- Modelled from the spec: `AppendCStringTerminator` from the `util`
package (not among the provided sources) ensures a trailing NUL byte on a
non-empty byte string and leaves an empty byte string empty. -/
def AppendCStringTerminator (b : List Nat) : List Nat :=
  if b ≠ [] ∧ b.getLast? ≠ some 0 then b ++ [0] else b

/-- Embedding of the Go constant `DefaultEncoding` (part_001 line 63). -/
def DefaultEncoding : String := "utf-8"

/-- Embedding of `DefaultEncodingBytes` (part_001 line 87). -/
def DefaultEncodingBytes : List Nat :=
  DefaultEncoding.data.map Char.toNat

/-- Embedding of `ERR_FAILED_TO_PARSE_XML` and `ErrFailParseFragment`. -/
inductive XmlError where
  | failedToParseXml
  | failParseFragment
deriving DecidableEq, Repr

/-- Embedding of the Go `DocumentFragment` value as far as the claims
observe it: the ordered child list of node handles.  (The back-reference
`Document` field is the owning document itself and is left implicit.) -/
structure DocumentFragment where
  Children : List Nat
deriving DecidableEq, Repr

/-- Embedding of the `XmlDocument` struct fields the claims observe.
`UnlinkedNodes` is a Go `map[*C.xmlNode]bool`; it is embedded as its key
list, kept duplicate-free (a Go map cannot hold a key twice), in some
iteration order. -/
structure XmlDocument where
  tree : Tree
  InEncoding : List Nat
  OutEncoding : List Nat
  InputLen : Nat
  UnlinkedNodes : List Nat
  XPathCtx : XPath
  fragments : List DocumentFragment
deriving DecidableEq, Repr

/-- Key insertion for the `UnlinkedNodes` map: inserting a key already
present leaves the map unchanged. -/
def insertKey (s : List Nat) (p : Nat) : List Nat :=
  if p ∈ s then s else s ++ [p]

/-- Embedding of `NewDocument` (part_001 lines 92–107): terminate the
encodings, make an empty unlinked-node map and fragment list, and bind a
fresh xpath engine to the document via `NewXPath` (the document pointer
handed to `NewDocument` is never `nil` at its call sites, so the `getD`
default is never reached). -/
def NewDocument (treePtr : Tree) (contentLen : Nat) (inEncoding outEncoding : List Nat) :
    XmlDocument :=
  { tree := treePtr
    InEncoding := AppendCStringTerminator inEncoding
    OutEncoding := AppendCStringTerminator outEncoding
    InputLen := contentLen
    UnlinkedNodes := []
    XPathCtx := (NewXPath (some 0)).getD { ContextPtr := none, ResultPtr := none }
    fragments := [] }

/-- Embedding of `CreateEmptyDocument` (part_001 lines 165–169). -/
def CreateEmptyDocument (inEncoding outEncoding : List Nat) : XmlDocument :=
  NewDocument newEmptyXmlDoc 0 inEncoding outEncoding

/-- The `url` argument that `Parse` passes to the external parser:
`nil` when the caller's url is empty, else the NUL-terminated url. -/
def Parse.urlArg (url : List Nat) : Option (List Nat) :=
  if url.length > 0 then some (AppendCStringTerminator url) else none

/-- The `encoding` argument that `Parse` passes to the external parser:
`nil` when the (terminated) input encoding is empty, else that encoding. -/
def Parse.encodingArg (inEncoding : List Nat) : Option (List Nat) :=
  let e := AppendCStringTerminator inEncoding
  if e.length > 0 then some e else none

/-- Modelled from the spec: the text encoding the external engine
actually uses for a parse, given the (nullable) encoding argument —
"libxml2 use utf-8 by default, and so do we" (part_001 line 62, spec §6). -/
def effectiveEncoding (encArg : Option (List Nat)) : List Nat :=
  match encArg with
  | some e => e
  | none => DefaultEncodingBytes

/-- Embedding of `Parse` (part_001 lines 132–163).  `xmlParse` is the
external-parser oracle `(content, url, encoding, options) ↦ tree | nil`.
Non-empty content is handed to the oracle: a `nil` tree yields the parse
error and no document, a tree yields a new document and no error.  Empty
content short-circuits to `CreateEmptyDocument` without consulting the
oracle. -/
def Parse (content inEncoding url : List Nat) (options : Int) (outEncoding : List Nat)
    (xmlParse : List Nat → Option (List Nat) → Option (List Nat) → Int → Option Tree) :
    Option XmlDocument × Option XmlError :=
  let inE := AppendCStringTerminator inEncoding
  let outE := AppendCStringTerminator outEncoding
  if content.length > 0 then
    match xmlParse content (Parse.urlArg url) (Parse.encodingArg inEncoding) options with
    | none => (none, some XmlError.failedToParseXml)
    | some treePtr => (some (NewDocument treePtr content.length inE outE), none)
  else
    (some (CreateEmptyDocument inE outE), none)

/-- Embedding of `XmlDocument.Root` (part_001 lines 210–216):
`xmlDocGetRootElement`, absent when the tree has no root element. -/
def XmlDocument.Root (document : XmlDocument) : Option Nat :=
  document.tree.rootElement

/-- Modelled from the spec: the output encoding used when serializing a
document — the stored output encoding, defaulting to the engine's fixed
default when unspecified ("Encodings default to a fixed default (utf-8)
when unspecified", spec §4.1; the serializer itself is not among the
provided sources). -/
def XmlDocument.effectiveOutputEncoding (document : XmlDocument) : List Nat :=
  if document.OutEncoding = [] then DefaultEncodingBytes else document.OutEncoding

/-- Embedding of `XmlDocument.AddUnlinkedNode` (part_001 lines 201–204):
`document.UnlinkedNodes[p] = true` on the Go map. -/
def XmlDocument.AddUnlinkedNode (document : XmlDocument) (p : Nat) : XmlDocument :=
  { document with UnlinkedNodes := insertKey document.UnlinkedNodes p }

/-- Embedding of `XmlDocument.BookkeepFragment` (part_001 lines 206–208). -/
def XmlDocument.BookkeepFragment (document : XmlDocument) (fragment : DocumentFragment) :
    XmlDocument :=
  { document with fragments := document.fragments ++ [fragment] }

/-- Modelled from the spec: `DocumentFragment.Remove` (called by
`XmlDocument.Free` but not among the provided sources) detaches the
fragment's children into the owning document's tracked-detached set —
"the nodes are put in the unlinked list" (part_001 lines 273–274, spec
§4.1 `teardown`).  Insertion goes through the map-key insertion used by
`AddUnlinkedNode`. -/
def DocumentFragment.Remove (fragment : DocumentFragment) (tracked : List Nat) : List Nat :=
  fragment.Children.foldl insertKey tracked

/-- Embedding of `XmlDocument.Free` (part_001 lines 272–298): remove
every owned fragment first (moving their children into the unlinked map),
then free each node of the unlinked map and delete it, then free the
xpath engine's native state, then free the document tree. -/
def XmlDocument.Free (document : XmlDocument) : List Event × XmlDocument :=
  let tracked := document.fragments.foldl (fun s f => f.Remove s) document.UnlinkedNodes
  let fragEvents := (List.range document.fragments.length).map Event.removeFragment
  let nodeEvents := tracked.map Event.freeNode
  let xpathFree := document.XPathCtx.Free
  (fragEvents ++ nodeEvents ++ xpathFree.1 ++ [Event.freeTree],
   { document with UnlinkedNodes := [], XPathCtx := xpathFree.2 })

/-! ## The xml package: fragment parsing (src/xml/fragment.go) -/

/-- Embedding of a libxml2 `xmlNode`'s link structure: parent pointer,
sibling chain, and first child (`children` in libxml2). -/
structure XmlNode where
  parent : Option Nat
  prev : Option Nat
  next : Option Nat
  firstChild : Option Nat
deriving DecidableEq, Repr

/-- The native node arena: node handle to node record. -/
def Heap : Type := Nat → XmlNode

/-- Pointwise update of one node record in the arena. -/
def Heap.set (h : Heap) (i : Nat) (v : XmlNode) : Heap :=
  fun j => if j = i then v else h j

/-- Embedding of libxml2's `xmlUnlinkNode`: splice the node out of its
parent's child chain (fixing the previous sibling's `next`, or the
parent's first-child pointer when it is the first child, and the next
sibling's `prev`), then clear its own `parent`/`prev`/`next` links. -/
def xmlUnlinkNode (h : Heap) (c : Nat) : Heap :=
  let nd := h c
  let h1 : Heap :=
    match nd.prev with
    | some p => h.set p { h p with next := nd.next }
    | none =>
      match nd.parent with
      | some par => h.set par { h par with firstChild := nd.next }
      | none => h
  let h2 : Heap :=
    match nd.next with
    | some nx => h1.set nx { h1 nx with prev := nd.prev }
    | none => h1
  h2.set c { h2 c with parent := none, prev := none, next := none }

/-- Embedding of the collection loop of `ParseFragment` (fragment.go
lines 50–54): walk the sibling chain starting at `c`, saving each node's
`next` pointer before unlinking it and appending it to the child list.
`fuel` bounds the pointer walk (the native chain is finite). -/
def collectChildren (h : Heap) (c : Option Nat) (fuel : Nat) : List Nat × List Event × Heap :=
  match fuel with
  | 0 => ([], [], h)
  | fuel + 1 =>
    match c with
    | none => ([], [], h)
    | some n =>
      let nextSibling := (h n).next
      let h1 := xmlUnlinkNode h n
      let rest := collectChildren h1 nextSibling fuel
      (n :: rest.1, Event.unlinkNode n :: Event.collectChild n :: rest.2.1, rest.2.2)

/-- Embedding of `fragmentWrapperStart` (fragment.go line 11). -/
def fragmentWrapperStart : List Nat := "<root>".data.map Char.toNat

/-- Embedding of `fragmentWrapperEnd` (fragment.go line 12). -/
def fragmentWrapperEnd : List Nat := "</root>".data.map Char.toNat

/-- The document `ParseFragment` parses into (fragment.go lines 26–28):
the supplied one, or — when `nil` — a freshly created empty document
(whose tree is the empty tree). -/
def ParseFragment.docArg (document : Option XmlDocument) (encoding : List Nat) : XmlDocument :=
  match document with
  | some d => d
  | none => CreateEmptyDocument encoding encoding

/-- Embedding of `ParseFragment` (fragment.go lines 22–57).  Empty
content returns the zero values (no fragment, no error) at once.
Otherwise the content is wrapped in the synthetic `<root>` element and
handed to the external fragment parser (oracle `xmlParseFragment`,
returning `nil` or the synthetic root's handle together with the native
arena it was parsed into).  A `nil` root signals the fragment parse
error; otherwise the synthetic root's children are unlinked and collected
in order, and the then-childless synthetic root is freed. -/
def ParseFragment (document : Option XmlDocument) (content encoding url : List Nat)
    (options : Int)
    (xmlParseFragment : Tree → List Nat → Option (List Nat) → Int → Option (Nat × Heap))
    (fuel : Nat) :
    Option DocumentFragment × Option XmlError × List Event × Option Heap :=
  if content = [] then (none, none, [], none)
  else
    let wrapped := fragmentWrapperStart ++ content ++ fragmentWrapperEnd
    let urlArg := if url.length > 0 then some url else none
    match xmlParseFragment (ParseFragment.docArg document encoding).tree wrapped urlArg options with
    | none => (none, some XmlError.failParseFragment, [], none)
    | some (rootElementPtr, h0) =>
      let walk := collectChildren h0 ((h0 rootElementPtr).firstChild) fuel
      (some { Children := walk.1 }, none,
       walk.2.1 ++ [Event.freeNode rootElementPtr], some (walk.2.2))

/-- `chainFrom h root prevId c? cs`: in arena `h`, starting from pointer
`c?`, the nodes `cs` form exactly the sibling chain of children of
`root`, with `prevId` the back-pointer expected of the first one. -/
def chainFrom (h : Heap) (root : Nat) : Option Nat → Option Nat → List Nat → Prop
  | _, c?, [] => c? = none
  | prevId, c?, c :: cs =>
    c? = some c ∧ (h c).parent = some root ∧ (h c).prev = prevId ∧
      chainFrom h root (some c) ((h c).next) cs

instance chainFrom.instDecidable (h : Heap) (root : Nat) :
    ∀ (prevId c? : Option Nat) (cs : List Nat), Decidable (chainFrom h root prevId c? cs)
  | _, c?, [] => by unfold chainFrom; infer_instance
  | prevId, c?, c :: cs => by
    unfold chainFrom
    have := chainFrom.instDecidable h root (some c) ((h c).next) cs
    infer_instance

/-! ## Concrete instances used by the witnesses -/

/-- A small concrete document: one fragment (children 5 and 4), tracked
set `[3, 4]`, live engine context and a retained result. -/
def docW : XmlDocument :=
  { tree := { rootElement := some 1 }
    InEncoding := []
    OutEncoding := []
    InputLen := 5
    UnlinkedNodes := [3, 4]
    XPathCtx :=
      { ContextPtr := some { doc := 0, node := none }
        ResultPtr := some { nodesetval := none } }
    fragments := [{ Children := [5, 4] }] }

/-- A second small concrete document with tracked set `[3]`. -/
def docW2 : XmlDocument :=
  { tree := { rootElement := none }
    InEncoding := []
    OutEncoding := []
    InputLen := 0
    UnlinkedNodes := [3]
    XPathCtx := { ContextPtr := none, ResultPtr := none }
    fragments := [] }

/-- A concrete engine with a live context and a retained result. -/
def xpathW : XPath :=
  { ContextPtr := some { doc := 0, node := none }
    ResultPtr := some { nodesetval := some [7] } }

/-- A concrete compiled expression producing the singleton node set 5. -/
def exprW : Nat → XPathObject := fun _ => { nodesetval := some [5] }

/-- A document-parser oracle that always fails. -/
def parseOracleFailW : List Nat → Option (List Nat) → Option (List Nat) → Int → Option Tree :=
  fun _ _ _ _ => none

/-- A concrete arena: synthetic root 10 with child chain 1, 2. -/
def heapW : Heap := fun n =>
  if n = 10 then { parent := none, prev := none, next := none, firstChild := some 1 }
  else if n = 1 then { parent := some 10, prev := none, next := some 2, firstChild := none }
  else if n = 2 then { parent := some 10, prev := some 1, next := none, firstChild := none }
  else { parent := none, prev := none, next := none, firstChild := none }

/-- A fragment-parser oracle returning the synthetic root of `heapW`. -/
def fragOracleW : Tree → List Nat → Option (List Nat) → Int → Option (Nat × Heap) :=
  fun _ _ _ _ => some (10, heapW)

/-- A fragment-parser oracle that always fails. -/
def fragOracleNoneW : Tree → List Nat → Option (List Nat) → Int → Option (Nat × Heap) :=
  fun _ _ _ _ => none

/-! ## Shared helper lemmas -/

theorem insertKey_nodup {s : List Nat} (p : Nat) (h : s.Nodup) : (insertKey s p).Nodup := by
  unfold insertKey
  split
  · exact h
  · next hp => simpa [List.nodup_append] using ⟨h, fun hmem => hp hmem⟩

theorem insertKey_foldl_nodup (l : List Nat) {s : List Nat} (h : s.Nodup) :
    (l.foldl insertKey s).Nodup := by
  induction l generalizing s with
  | nil => exact h
  | cons a l ih => exact ih (insertKey_nodup a h)

theorem fragmentRemove_foldl_nodup (fs : List DocumentFragment) {s : List Nat} (h : s.Nodup) :
    (fs.foldl (fun t f => f.Remove t) s).Nodup := by
  induction fs generalizing s with
  | nil => exact h
  | cons f fs ih => exact ih (insertKey_foldl_nodup f.Children h)

/-- Number of occurrences of one event in a trace. -/
def countEvent (e : Event) : List Event → Nat
  | [] => 0
  | f :: tr => countEvent e tr + if f = e then 1 else 0

theorem countEvent_append (e : Event) (a b : List Event) :
    countEvent e (a ++ b) = countEvent e a + countEvent e b := by
  induction a with
  | nil => simp [countEvent]
  | cons f a ih => simp [countEvent, ih]; omega

theorem countEvent_eq_zero {e : Event} {tr : List Event} (h : e ∉ tr) :
    countEvent e tr = 0 := by
  induction tr with
  | nil => rfl
  | cons f tr ih =>
    simp only [List.mem_cons, not_or] at h
    simp [countEvent, ih h.2, Ne.symm h.1]

theorem retained_le_one (x : XPath) : x.retained ≤ 1 := by
  unfold XPath.retained
  cases x.ResultPtr <;> simp

theorem countEvent_freeOldResult_alloc (x : XPath) :
    countEvent Event.allocResult (freeOldResult x) = 0 := by
  unfold freeOldResult
  cases x.ResultPtr <;> simp [countEvent]

theorem countEvent_freeOldResult_free (x : XPath) :
    countEvent Event.freeResultObj (freeOldResult x) = x.retained := by
  unfold freeOldResult XPath.retained
  cases x.ResultPtr <;> simp [countEvent]

/-- Result-object conservation along any run of evaluations on one
engine: initially retained objects plus allocated ones equal freed ones
plus finally retained ones, and at most one is ever retained. -/
theorem evalMany_conservation (evals : List (Nat × (Nat → XPathObject))) :
    ∀ x : XPath, x.ContextPtr.isSome → ∀ tr x', x.EvalMany evals = some (tr, x') →
      x.retained + countEvent Event.allocResult tr
          = countEvent Event.freeResultObj tr + x'.retained ∧
        x'.retained ≤ 1 ∧ x'.ContextPtr.isSome := by
  induction evals with
  | nil =>
    intro x hx tr x' h
    simp only [XPath.EvalMany, Option.some.injEq, Prod.mk.injEq] at h
    obtain ⟨rfl, rfl⟩ := h
    exact ⟨by simp [countEvent], retained_le_one x, hx⟩
  | cons ne rest ih =>
    intro x hx tr x' h
    obtain ⟨ctx, hctx⟩ := Option.isSome_iff_exists.mp hx
    obtain ⟨n, e⟩ := ne
    simp only [XPath.EvalMany, XPath.Evaluate, hctx] at h
    set x1 : XPath :=
      { ContextPtr := some { ctx with node := some n }, ResultPtr := some (e n) } with hx1
    rcases hmany : x1.EvalMany rest with _ | ⟨tr', x''⟩
    · rw [hmany] at h; exact absurd h (by simp)
    · rw [hmany] at h
      simp only [Option.some.injEq, Prod.mk.injEq] at h
      obtain ⟨rfl, rfl⟩ := h
      obtain ⟨hcons, hle, hsome⟩ := ih x1 (by simp [hx1]) tr' x'' hmany
      refine ⟨?_, hle, hsome⟩
      have h1 : x1.retained = 1 := by simp [hx1, XPath.retained]
      rw [h1] at hcons
      simp [countEvent, countEvent_append, countEvent_freeOldResult_alloc,
        countEvent_freeOldResult_free]
      omega

theorem countEvent_map_freeNode_zero {p : Nat} {l : List Nat} (h : p ∉ l) :
    countEvent (Event.freeNode p) (l.map Event.freeNode) = 0 := by
  refine countEvent_eq_zero ?_
  simp only [List.mem_map, not_exists]
  rintro a ⟨ha, haeq⟩
  have : a = p := by simpa using haeq
  exact h (this ▸ ha)

theorem countEvent_map_freeNode_one {p : Nat} {l : List Nat} (hnd : l.Nodup) (hp : p ∈ l) :
    countEvent (Event.freeNode p) (l.map Event.freeNode) = 1 := by
  induction l with
  | nil => cases hp
  | cons a l ih =>
    obtain ⟨hal, hnd'⟩ := List.nodup_cons.mp hnd
    rcases List.mem_cons.mp hp with rfl | hpl
    · simp [countEvent, countEvent_map_freeNode_zero hal]
    · have ha : a ≠ p := by rintro rfl; exact hal hpl
      simp [countEvent, ih hnd' hpl, ha]

theorem xpathFree_events (x : XPath) :
    ∀ e ∈ x.Free.1, e = Event.freeContext ∨ e = Event.freeResultObj := by
  obtain ⟨_ | c, _ | r⟩ := x <;> simp [XPath.Free]

theorem xpathFree_freeContext_mem (x : XPath) (h : x.ContextPtr.isSome) :
    Event.freeContext ∈ x.Free.1 := by
  obtain ⟨_ | c, _ | r⟩ := x <;> simp_all [XPath.Free]

theorem xpathFree_freeResult_mem (x : XPath) (h : x.ResultPtr.isSome) :
    Event.freeResultObj ∈ x.Free.1 := by
  obtain ⟨_ | c, _ | r⟩ := x <;> simp_all [XPath.Free]

theorem xpathFree_state (x : XPath) :
    x.Free.2.ContextPtr = none ∧ x.Free.2.ResultPtr = none := by
  obtain ⟨_ | c, _ | r⟩ := x <;> simp [XPath.Free]

theorem Heap.set_same (h : Heap) (i : Nat) (v : XmlNode) : (h.set i v) i = v := by
  simp [Heap.set]

theorem Heap.set_other (h : Heap) {i j : Nat} (v : XmlNode) (hij : j ≠ i) :
    (h.set i v) j = h j := by
  simp [Heap.set, hij]

theorem chainFrom_congr {h h' : Heap} {root : Nat} :
    ∀ (cs : List Nat) (prevId c? : Option Nat), (∀ x ∈ cs, h' x = h x) →
      chainFrom h root prevId c? cs → chainFrom h' root prevId c? cs := by
  intro cs
  induction cs with
  | nil => intro prevId c? _ hch; exact hch
  | cons c cs ih =>
    intro prevId c? hagree hch
    obtain ⟨rfl, hpar, hprev, htail⟩ := hch
    have hc : h' c = h c := hagree c (by simp)
    refine ⟨rfl, by rw [hc]; exact hpar, by rw [hc]; exact hprev, ?_⟩
    rw [hc]
    exact ih (some c) ((h c).next) (fun x hx => hagree x (by simp [hx])) htail

/-- Effect of `xmlUnlinkNode` on the first node of a child chain: the
node's own links are cleared, the parent's first-child pointer moves to
the next sibling, the next sibling (if any) loses its back pointer, and
every other node is untouched. -/
theorem xmlUnlinkNode_head {h : Heap} {root c : Nat}
    (hpar : (h c).parent = some root) (hprev : (h c).prev = none) (hcr : c ≠ root)
    (hnx : ∀ nx, (h c).next = some nx → nx ≠ c ∧ nx ≠ root) :
    (xmlUnlinkNode h c) c =
      { parent := none, prev := none, next := none, firstChild := (h c).firstChild } ∧
    (xmlUnlinkNode h c) root = { h root with firstChild := (h c).next } ∧
    (∀ nx, (h c).next = some nx → (xmlUnlinkNode h c) nx = { h nx with prev := none }) ∧
    (∀ x, x ≠ c → x ≠ root → (h c).next ≠ some x → (xmlUnlinkNode h c) x = h x) := by
  unfold xmlUnlinkNode
  rw [hprev, hpar]
  cases hn : (h c).next with
  | none =>
    refine ⟨?_, ?_, ?_, ?_⟩
    · simp [Heap.set, hcr]
    · simp [Heap.set, Ne.symm hcr]
    · simp
    · intro x hxc hxr _
      simp [Heap.set, hxc, hxr]
  | some nx =>
    obtain ⟨hnc, hnr⟩ := hnx nx hn
    refine ⟨?_, ?_, ?_, ?_⟩
    · simp [Heap.set, hcr, Ne.symm hnc]
    · simp [Heap.set, Ne.symm hcr, Ne.symm hnr]
    · intro nx' hnx'
      obtain rfl : nx = nx' := by injection hnx'
      simp [Heap.set, hnc, hnr, hprev]
    · intro x hxc hxr hxn
      have hxnx : x ≠ nx := fun hxx => hxn (by rw [hxx])
      simp [Heap.set, hxc, hxr, hxnx]

/-- Master lemma for the fragment collection loop: walking a well-formed
child chain of `root` collects exactly the chain's nodes in order,
unlinks each of them (no parent, no siblings), leaves `root` childless,
and touches no other node. -/
theorem collectChildren_spec :
    ∀ (cs : List Nat) (h : Heap) (root : Nat) (c? : Option Nat) (fuel : Nat),
      chainFrom h root none c? cs →
      (h root).firstChild = c? →
      (root :: cs).Nodup →
      cs.length ≤ fuel →
      (collectChildren h c? fuel).1 = cs ∧
      (collectChildren h c? fuel).2.1 =
        cs.flatMap (fun c => [Event.unlinkNode c, Event.collectChild c]) ∧
      (∀ x ∈ cs, ((collectChildren h c? fuel).2.2 x).parent = none ∧
        ((collectChildren h c? fuel).2.2 x).prev = none ∧
        ((collectChildren h c? fuel).2.2 x).next = none) ∧
      ((collectChildren h c? fuel).2.2 root).firstChild = none ∧
      (∀ x, x ∉ root :: cs → (collectChildren h c? fuel).2.2 x = h x) := by
  intro cs
  induction cs with
  | nil =>
    intro h root c? fuel hch hfc hnd hfuel
    obtain rfl : c? = none := hch
    cases fuel <;> simp [collectChildren, hfc]
  | cons c cs ih =>
    intro h root c? fuel hch hfc hnd hfuel
    obtain ⟨rfl, hpar, hprev, htail⟩ := hch
    cases fuel with
    | zero => simp at hfuel
    | succ f =>
      obtain ⟨hroot_notin, hnd1⟩ := List.nodup_cons.mp hnd
      obtain ⟨hc_notin, hnd2⟩ := List.nodup_cons.mp hnd1
      have hrc : root ≠ c := fun hre => hroot_notin (hre ▸ List.mem_cons_self c cs)
      have hroot_cs : root ∉ cs := fun hm => hroot_notin (List.mem_cons_of_mem c hm)
      have hnd' : (root :: cs).Nodup := List.nodup_cons.mpr ⟨hroot_cs, hnd2⟩
      have hnx : ∀ nx, (h c).next = some nx → nx ≠ c ∧ nx ≠ root := by
        intro nx hnxeq
        cases cs with
        | nil =>
          have hnone : (h c).next = none := htail
          rw [hnone] at hnxeq
          cases hnxeq
        | cons c2 cs' =>
          obtain ⟨heq, _, _, _⟩ := htail
          rw [heq] at hnxeq
          obtain rfl : c2 = nx := by injection hnxeq
          exact ⟨fun hx => hc_notin (by simp [← hx]), fun hx => hroot_cs (by simp [← hx])⟩
      obtain ⟨hself, hroot_upd, hnext_upd, hframe⟩ :=
        xmlUnlinkNode_head hpar hprev (Ne.symm hrc) hnx
      have hch1 : chainFrom (xmlUnlinkNode h c) root none ((h c).next) cs := by
        cases cs with
        | nil => exact htail
        | cons c2 cs' =>
          obtain ⟨heq, hpar2, hprev2, htail2⟩ := htail
          have hc2cs : c2 ∉ cs' := (List.nodup_cons.mp hnd2).1
          refine ⟨heq, ?_, ?_, ?_⟩
          · rw [hnext_upd c2 heq]
            exact hpar2
          · rw [hnext_upd c2 heq]
          · rw [hnext_upd c2 heq]
            refine chainFrom_congr cs' (some c2) ((h c2).next) ?_ htail2
            intro x hx
            refine hframe x ?_ ?_ ?_
            · exact fun hxx => hc_notin (hxx ▸ List.mem_cons_of_mem c2 hx)
            · exact fun hxx => hroot_cs (hxx ▸ List.mem_cons_of_mem c2 hx)
            · rw [heq]
              intro hxx
              obtain rfl : c2 = x := by injection hxx
              exact hc2cs hx
      have hfc1 : ((xmlUnlinkNode h c) root).firstChild = (h c).next := by
        rw [hroot_upd]
      have hfuel' : cs.length ≤ f := by simpa using hfuel
      obtain ⟨ih1, ih2, ih3, ih4, ih5⟩ :=
        ih (xmlUnlinkNode h c) root ((h c).next) f hch1 hfc1 hnd' hfuel'
      have hgoal : collectChildren h (some c) (f + 1) =
          (c :: (collectChildren (xmlUnlinkNode h c) ((h c).next) f).1,
           Event.unlinkNode c :: Event.collectChild c ::
             (collectChildren (xmlUnlinkNode h c) ((h c).next) f).2.1,
           (collectChildren (xmlUnlinkNode h c) ((h c).next) f).2.2) := rfl
      rw [hgoal]
      refine ⟨by rw [ih1], by simp [ih2], ?_, ih4, ?_⟩
      · intro x hx
        rcases List.mem_cons.mp hx with rfl | hxcs
        · have hxnot : x ∉ root :: cs := by
            simp only [List.mem_cons, not_or]
            exact ⟨Ne.symm hrc, hc_notin⟩
          rw [ih5 x hxnot, hself]
          exact ⟨rfl, rfl, rfl⟩
        · exact ih3 x hxcs
      · intro x hxnot
        simp only [List.mem_cons, not_or] at hxnot
        obtain ⟨hxr, hxc, hxcs⟩ := hxnot
        have hx1 : x ∉ root :: cs := by
          simp only [List.mem_cons, not_or]
          exact ⟨hxr, hxcs⟩
        rw [ih5 x hx1]
        refine hframe x hxc hxr ?_
        cases cs with
        | nil =>
          have hnone : (h c).next = none := htail
          rw [hnone]
          simp
        | cons c2 cs' =>
          obtain ⟨heq, _, _, _⟩ := htail
          rw [heq]
          intro hxx
          obtain rfl : c2 = x := by injection hxx
          exact hxcs (List.mem_cons_self c2 cs')

/-! ## Claim theorems -/

/-- **C10.** `NewXPath` with a `nil` document pointer returns the absent
engine and allocates no evaluation context; with a non-`nil` document
pointer it returns an engine whose evaluation context is present and
bound to that document, with no retained result. -/
theorem newXPath_nil_contract :
    NewXPath none = none ∧
    ∀ d : Nat, NewXPath (some d) =
      some { ContextPtr := some { doc := d, node := none }, ResultPtr := none } := by
  exact ⟨rfl, fun d => rfl⟩

/-- **C8.** `XPath.Free` releases the evaluation context and the
retained result at most once each, leaves both fields absent, and a
second call performs no release at all and does not change the state. -/
theorem xpath_free_idempotent (x : XPath) :
    (x.Free.1.count Event.freeContext ≤ 1) ∧
    (x.Free.1.count Event.freeResultObj ≤ 1) ∧
    x.Free.2.ContextPtr = none ∧
    x.Free.2.ResultPtr = none ∧
    x.Free.2.Free = ([], x.Free.2) := by
  obtain ⟨_ | c, _ | r⟩ := x <;> simp [XPath.Free, List.count_cons]

/-- **C9.** `AddUnlinkedNode` is idempotent per handle: registering the
same handle twice equals registering it once, and (on a well-formed,
duplicate-free map) the handle then occurs exactly once in the
tracked-detached set, which stays duplicate-free. -/
theorem addUnlinkedNode_idempotent (doc : XmlDocument) (p : Nat)
    (h : doc.UnlinkedNodes.Nodup) :
    (doc.AddUnlinkedNode p).AddUnlinkedNode p = doc.AddUnlinkedNode p ∧
    (doc.AddUnlinkedNode p).UnlinkedNodes.count p = 1 ∧
    (doc.AddUnlinkedNode p).UnlinkedNodes.Nodup := by
  refine ⟨?_, ?_, insertKey_nodup p h⟩
  · unfold XmlDocument.AddUnlinkedNode insertKey
    split
    · next hp => simp [hp]
    · next hp => simp
  · unfold XmlDocument.AddUnlinkedNode insertKey
    split
    · next hp => exact List.count_eq_one_of_mem h hp
    · next hp =>
      have h0 : doc.UnlinkedNodes.count p = 0 := List.count_eq_zero_of_not_mem hp
      simp [List.count_append, h0]

/-- **C6.** `XPath.Evaluate` with an absent context node is a no-op: it
returns the empty sequence, emits no event and leaves the engine state
untouched.  With a present context node (and a live evaluation context)
it sets that node as the evaluation context and returns exactly the
ordered node set the compiled expression produces — the empty sequence,
not an error, when the expression matches nothing. -/
theorem evaluate_contract (x : XPath) (ctx : XPathContext)
    (h : x.ContextPtr = some ctx) (n : Nat) (expr : Nat → XPathObject) :
    x.Evaluate none expr = some ([], [], x) ∧
    ∃ evts, x.Evaluate (some n) expr =
      some ((expr n).nodesetval.getD [], evts,
        { ContextPtr := some { ctx with node := some n }, ResultPtr := some (expr n) }) := by
  have hnodes : nodesOfResult (expr n) = (expr n).nodesetval.getD [] := by
    unfold nodesOfResult
    cases hnv : (expr n).nodesetval with
    | none => rfl
    | some nodeTab =>
      by_cases hl : nodeTab.length > 0
      · simp [hl]
      · have : nodeTab = [] := by
          simpa [List.length_eq_zero] using Nat.le_zero.mp (Nat.not_lt.mp hl)
        simp [this]
  constructor
  · rfl
  · refine ⟨Event.setContextNode n :: freeOldResult x ++ [Event.allocResult], ?_⟩
    simp only [XPath.Evaluate, h, hnodes]

/-- **C5.** At most one retained result object exists per engine
instance: an evaluation with a present context node first frees the
previously retained result (when one exists) before allocating and
retaining the new one — visible in its event trace — and along any run
of evaluations the allocated result objects are exactly the freed ones
plus the (at most one) finally retained one. -/
theorem xpath_at_most_one_result (x : XPath) (ctx : XPathContext)
    (hctx : x.ContextPtr = some ctx) :
    (∀ (n : Nat) (expr : Nat → XPathObject), ∃ nodes x',
        x.Evaluate (some n) expr =
          some (nodes, Event.setContextNode n :: freeOldResult x ++ [Event.allocResult], x') ∧
        (x.ResultPtr.isSome → freeOldResult x = [Event.freeResultObj]) ∧
        x'.retained = 1) ∧
    ∀ evals tr x', x.EvalMany evals = some (tr, x') →
      x.retained + countEvent Event.allocResult tr
          = countEvent Event.freeResultObj tr + x'.retained ∧
        x'.retained ≤ 1 := by
  constructor
  · intro n expr
    refine ⟨nodesOfResult (expr n),
      { ContextPtr := some { ctx with node := some n }, ResultPtr := some (expr n) },
      ?_, ?_, ?_⟩
    · simp only [XPath.Evaluate, hctx]
    · intro hr
      obtain ⟨r, hr'⟩ := Option.isSome_iff_exists.mp hr
      simp [freeOldResult, hr']
    · simp [XPath.retained]
  · intro evals tr x' h
    obtain ⟨hcons, hle, _⟩ := evalMany_conservation evals x (by simp [hctx]) tr x' h
    exact ⟨hcons, hle⟩

/-- **C2.** `Parse` on empty content succeeds without consulting the
external parser, returning the minimal empty document — whose root is
absent — and no error; on non-empty content it returns the parse error
exactly when the external parser returns a `nil` tree, and in that case
no document object is returned. -/
theorem parse_contract (content inEncoding url : List Nat) (options : Int)
    (outEncoding : List Nat)
    (xmlParse : List Nat → Option (List Nat) → Option (List Nat) → Int → Option Tree) :
    (content = [] →
      Parse content inEncoding url options outEncoding xmlParse =
        (some (CreateEmptyDocument (AppendCStringTerminator inEncoding)
          (AppendCStringTerminator outEncoding)), none) ∧
      ∀ d, (Parse content inEncoding url options outEncoding xmlParse).1 = some d →
        d.Root = none) ∧
    (content ≠ [] →
      ((Parse content inEncoding url options outEncoding xmlParse).2
          = some XmlError.failedToParseXml ↔
        xmlParse content (Parse.urlArg url) (Parse.encodingArg inEncoding) options = none) ∧
      (xmlParse content (Parse.urlArg url) (Parse.encodingArg inEncoding) options = none →
        (Parse content inEncoding url options outEncoding xmlParse).1 = none)) := by
  constructor
  · rintro rfl
    constructor
    · simp [Parse]
    · intro d hd
      simp only [Parse, List.length_nil, gt_iff_lt, Nat.lt_irrefl, if_false,
        Option.some.injEq] at hd
      subst hd
      rfl
  · intro hne
    have hlen : content.length > 0 := by
      cases content with
      | nil => exact absurd rfl hne
      | cons a l => simp
    cases hp : xmlParse content (Parse.urlArg url) (Parse.encodingArg inEncoding) options with
    | none => simp [Parse, hlen, hp]
    | some treePtr => simp [Parse, hlen, hp]

/-- **C7.** When the input or output encoding is unspecified (empty),
the encoding used for the document defaults to `"utf-8"`: `Parse` then
passes no encoding to the external parser, whose effective encoding is
the default `"utf-8"`, and the document it returns stores an empty
output encoding, whose effective serialization encoding is likewise the
default `"utf-8"`. -/
theorem parse_default_encoding (content url : List Nat) (options : Int)
    (xmlParse : List Nat → Option (List Nat) → Option (List Nat) → Int → Option Tree)
    (d : XmlDocument) (hd : (Parse content [] url options [] xmlParse).1 = some d) :
    Parse.encodingArg [] = none ∧
    effectiveEncoding (Parse.encodingArg []) = DefaultEncodingBytes ∧
    d.OutEncoding = [] ∧
    d.effectiveOutputEncoding = DefaultEncodingBytes ∧
    DefaultEncodingBytes = [117, 116, 102, 45, 56] := by
  have hterm : AppendCStringTerminator [] = [] := by simp [AppendCStringTerminator]
  have hout : d.OutEncoding = [] := by
    by_cases hlen : content.length > 0
    · cases hp : xmlParse content (Parse.urlArg url) (Parse.encodingArg []) options with
      | none => simp [Parse, hlen, hp] at hd
      | some treePtr =>
        simp only [Parse, hlen, if_true, hp, Option.some.injEq] at hd
        subst hd
        simp [NewDocument, hterm]
    · simp only [Parse, hlen, if_false, Option.some.injEq] at hd
      subst hd
      simp [CreateEmptyDocument, NewDocument, hterm]
  refine ⟨?_, ?_, hout, ?_, ?_⟩
  · simp [Parse.encodingArg, hterm]
  · simp [Parse.encodingArg, hterm, effectiveEncoding]
  · simp [XmlDocument.effectiveOutputEncoding, hout]
  · decide

/-- **C1.** `XmlDocument.Free` tears down in strict order: first every
owned fragment is removed — moving its children into the
tracked-detached set — then every node of the (augmented)
tracked-detached set is freed exactly once and the set is emptied, then
the bound query engine's evaluation context and any retained result
object are released, and finally the document tree itself is freed. -/
theorem xmlDocument_free_order (doc : XmlDocument) (h : doc.UnlinkedNodes.Nodup) :
    ∃ tracked : List Nat,
      tracked = doc.fragments.foldl (fun s f => f.Remove s) doc.UnlinkedNodes ∧
      doc.Free.1 =
        ((List.range doc.fragments.length).map Event.removeFragment)
          ++ tracked.map Event.freeNode ++ doc.XPathCtx.Free.1 ++ [Event.freeTree] ∧
      tracked.Nodup ∧
      (∀ p ∈ tracked, countEvent (Event.freeNode p) doc.Free.1 = 1) ∧
      (∀ e ∈ doc.XPathCtx.Free.1, e = Event.freeContext ∨ e = Event.freeResultObj) ∧
      (doc.XPathCtx.ContextPtr.isSome → Event.freeContext ∈ doc.Free.1) ∧
      (doc.XPathCtx.ResultPtr.isSome → Event.freeResultObj ∈ doc.Free.1) ∧
      doc.Free.2.UnlinkedNodes = [] ∧
      doc.Free.2.XPathCtx.ContextPtr = none ∧
      doc.Free.2.XPathCtx.ResultPtr = none := by
  set tracked := doc.fragments.foldl (fun s f => f.Remove s) doc.UnlinkedNodes with htracked
  have hnd : tracked.Nodup := fragmentRemove_foldl_nodup doc.fragments h
  have htrace : doc.Free.1 =
      ((List.range doc.fragments.length).map Event.removeFragment)
        ++ tracked.map Event.freeNode ++ doc.XPathCtx.Free.1 ++ [Event.freeTree] := rfl
  have hstate2 : doc.Free.2.XPathCtx = doc.XPathCtx.Free.2 := rfl
  refine ⟨tracked, rfl, htrace, hnd, ?_, xpathFree_events doc.XPathCtx, ?_, ?_, rfl, ?_, ?_⟩
  · intro p hp
    rw [htrace, countEvent_append, countEvent_append, countEvent_append,
      countEvent_map_freeNode_one hnd hp]
    have hA : countEvent (Event.freeNode p)
        ((List.range doc.fragments.length).map Event.removeFragment) = 0 := by
      refine countEvent_eq_zero ?_
      simp
    have hC : countEvent (Event.freeNode p) doc.XPathCtx.Free.1 = 0 := by
      refine countEvent_eq_zero fun hmem => ?_
      rcases xpathFree_events doc.XPathCtx _ hmem with h' | h' <;> simp at h'
    have hD : countEvent (Event.freeNode p) [Event.freeTree] = 0 := by
      simp [countEvent]
    omega
  · intro hc
    rw [htrace]
    have := xpathFree_freeContext_mem doc.XPathCtx hc
    simp [this]
  · intro hr
    rw [htrace]
    have := xpathFree_freeResult_mem doc.XPathCtx hr
    simp [this]
  · rw [hstate2]
    exact (xpathFree_state doc.XPathCtx).1
  · rw [hstate2]
    exact (xpathFree_state doc.XPathCtx).2

/-- **C4.** `ParseFragment` on empty content yields neither a fragment
nor an error (a valid empty outcome); on non-empty content the
fragment-parse error is signalled exactly when the external parser
returns a `nil` synthetic root, and in that case no (partial) fragment
object is returned. -/
theorem parseFragment_error_contract (document : Option XmlDocument)
    (content encoding url : List Nat) (options : Int)
    (oracle : Tree → List Nat → Option (List Nat) → Int → Option (Nat × Heap))
    (fuel : Nat) :
    (content = [] →
      ParseFragment document content encoding url options oracle fuel =
        (none, none, [], none)) ∧
    (content ≠ [] →
      ((ParseFragment document content encoding url options oracle fuel).2.1
          = some XmlError.failParseFragment ↔
        oracle (ParseFragment.docArg document encoding).tree
          (fragmentWrapperStart ++ content ++ fragmentWrapperEnd)
          (if url.length > 0 then some url else none) options = none) ∧
      (oracle (ParseFragment.docArg document encoding).tree
          (fragmentWrapperStart ++ content ++ fragmentWrapperEnd)
          (if url.length > 0 then some url else none) options = none →
        (ParseFragment document content encoding url options oracle fuel).1 = none)) := by
  constructor
  · rintro rfl
    simp [ParseFragment]
  · intro hne
    simp only [ParseFragment]
    rw [if_neg hne]
    cases hp : oracle (ParseFragment.docArg document encoding).tree
        (fragmentWrapperStart ++ content ++ fragmentWrapperEnd)
        (if url.length > 0 then some url else none) options with
    | none => simp
    | some rh => simp

/-- **C3.** A successful fragment parse whose wrapped content parsed
into a synthetic root with child chain `cs` (N top-level siblings)
returns a fragment whose child list is exactly `cs` in original
document order; each child is unlinked before being collected (visible
in the event trace) and ends with no parent and no siblings; the
synthetic root is childless afterwards and is freed at the end of the
call, and no node is ever added to the tracked-detached set. -/
theorem parseFragment_success_children (document : Option XmlDocument)
    (content encoding url : List Nat) (options : Int)
    (oracle : Tree → List Nat → Option (List Nat) → Int → Option (Nat × Heap))
    (fuel rootPtr : Nat) (h0 : Heap) (cs : List Nat)
    (hc : content ≠ [])
    (hp : oracle (ParseFragment.docArg document encoding).tree
        (fragmentWrapperStart ++ content ++ fragmentWrapperEnd)
        (if url.length > 0 then some url else none) options = some (rootPtr, h0))
    (hchain : chainFrom h0 rootPtr none ((h0 rootPtr).firstChild) cs)
    (hnd : (rootPtr :: cs).Nodup)
    (hfuel : cs.length ≤ fuel) :
    ∃ heap' : Heap,
      ParseFragment document content encoding url options oracle fuel =
        (some { Children := cs }, none,
         cs.flatMap (fun c => [Event.unlinkNode c, Event.collectChild c])
           ++ [Event.freeNode rootPtr], some heap') ∧
      (∀ x ∈ cs, (heap' x).parent = none ∧ (heap' x).prev = none ∧ (heap' x).next = none) ∧
      (heap' rootPtr).firstChild = none ∧
      ∀ p : Nat, Event.trackDetached p ∉
        cs.flatMap (fun c => [Event.unlinkNode c, Event.collectChild c])
          ++ [Event.freeNode rootPtr] := by
  obtain ⟨hcoll1, hcoll2, hcoll3, hcoll4, _⟩ :=
    collectChildren_spec cs h0 rootPtr ((h0 rootPtr).firstChild) fuel hchain rfl hnd hfuel
  refine ⟨(collectChildren h0 ((h0 rootPtr).firstChild) fuel).2.2, ?_, hcoll3, hcoll4, ?_⟩
  · have hunfold : ParseFragment document content encoding url options oracle fuel =
        (some { Children := (collectChildren h0 ((h0 rootPtr).firstChild) fuel).1 }, none,
         (collectChildren h0 ((h0 rootPtr).firstChild) fuel).2.1 ++ [Event.freeNode rootPtr],
         some ((collectChildren h0 ((h0 rootPtr).firstChild) fuel).2.2)) := by
      simp only [ParseFragment]
      rw [if_neg hc, hp]
    rw [hunfold, hcoll1, hcoll2]
  · intro p
    simp [List.mem_flatMap]

/-! ## Witnesses: each hypothesis-bearing claim theorem evaluated at a
concrete input -/

/-- Witness for the C1 theorem at the concrete document `docW`. -/
theorem xmlDocument_free_order_witness :
    docW.UnlinkedNodes.Nodup ∧
    ∃ tracked : List Nat,
      tracked = docW.fragments.foldl (fun s f => f.Remove s) docW.UnlinkedNodes ∧
      docW.Free.1 =
        ((List.range docW.fragments.length).map Event.removeFragment)
          ++ tracked.map Event.freeNode ++ docW.XPathCtx.Free.1 ++ [Event.freeTree] ∧
      tracked.Nodup ∧
      (∀ p ∈ tracked, countEvent (Event.freeNode p) docW.Free.1 = 1) ∧
      (∀ e ∈ docW.XPathCtx.Free.1, e = Event.freeContext ∨ e = Event.freeResultObj) ∧
      (docW.XPathCtx.ContextPtr.isSome → Event.freeContext ∈ docW.Free.1) ∧
      (docW.XPathCtx.ResultPtr.isSome → Event.freeResultObj ∈ docW.Free.1) ∧
      docW.Free.2.UnlinkedNodes = [] ∧
      docW.Free.2.XPathCtx.ContextPtr = none ∧
      docW.Free.2.XPathCtx.ResultPtr = none :=
  ⟨by decide, xmlDocument_free_order docW (by decide)⟩

/-- Witness for the C2 theorem: non-empty content `[60]` against the
always-failing parser oracle. -/
theorem parse_contract_witness :
    ([60] : List Nat) ≠ [] ∧
    (((Parse [60] [] [] 0 [] parseOracleFailW).2 = some XmlError.failedToParseXml) ↔
      parseOracleFailW [60] (Parse.urlArg []) (Parse.encodingArg []) 0 = none) ∧
    (parseOracleFailW [60] (Parse.urlArg []) (Parse.encodingArg []) 0 = none →
      (Parse [60] [] [] 0 [] parseOracleFailW).1 = none) :=
  ⟨by decide, (parse_contract [60] [] [] 0 [] parseOracleFailW).2 (by decide)⟩

/-- Witness for the C5 theorem at the concrete engine `xpathW`. -/
theorem xpath_at_most_one_result_witness :
    xpathW.ContextPtr = some { doc := 0, node := none } ∧
    ((∀ (n : Nat) (expr : Nat → XPathObject), ∃ nodes x',
        xpathW.Evaluate (some n) expr =
          some (nodes,
            Event.setContextNode n :: freeOldResult xpathW ++ [Event.allocResult], x') ∧
        (xpathW.ResultPtr.isSome → freeOldResult xpathW = [Event.freeResultObj]) ∧
        x'.retained = 1) ∧
      ∀ evals tr x', xpathW.EvalMany evals = some (tr, x') →
        xpathW.retained + countEvent Event.allocResult tr
            = countEvent Event.freeResultObj tr + x'.retained ∧
          x'.retained ≤ 1) :=
  ⟨rfl, xpath_at_most_one_result xpathW { doc := 0, node := none } rfl⟩

/-- Witness for the C6 theorem at the concrete engine `xpathW` and the
concrete expression `exprW`. -/
theorem evaluate_contract_witness :
    xpathW.ContextPtr = some { doc := 0, node := none } ∧
    (xpathW.Evaluate none exprW = some ([], [], xpathW) ∧
     ∃ evts, xpathW.Evaluate (some 5) exprW =
       some ((exprW 5).nodesetval.getD [], evts,
         { ContextPtr := some { doc := 0, node := some 5 },
           ResultPtr := some (exprW 5) })) :=
  ⟨rfl, evaluate_contract xpathW { doc := 0, node := none } rfl 5 exprW⟩

/-- Witness for the C7 theorem: empty-encoding parse of empty content,
yielding the empty document. -/
theorem parse_default_encoding_witness :
    (Parse [] [] [] 0 [] parseOracleFailW).1 = some (CreateEmptyDocument [] []) ∧
    (Parse.encodingArg [] = none ∧
     effectiveEncoding (Parse.encodingArg []) = DefaultEncodingBytes ∧
     (CreateEmptyDocument [] []).OutEncoding = [] ∧
     (CreateEmptyDocument [] []).effectiveOutputEncoding = DefaultEncodingBytes ∧
     DefaultEncodingBytes = [117, 116, 102, 45, 56]) :=
  ⟨by decide,
   parse_default_encoding [] [] 0 parseOracleFailW (CreateEmptyDocument [] []) (by decide)⟩

/-- Witness for the C9 theorem at the concrete document `docW2`. -/
theorem addUnlinkedNode_idempotent_witness :
    docW2.UnlinkedNodes.Nodup ∧
    ((docW2.AddUnlinkedNode 9).AddUnlinkedNode 9 = docW2.AddUnlinkedNode 9 ∧
     (docW2.AddUnlinkedNode 9).UnlinkedNodes.count 9 = 1 ∧
     (docW2.AddUnlinkedNode 9).UnlinkedNodes.Nodup) :=
  ⟨by decide, addUnlinkedNode_idempotent docW2 9 (by decide)⟩

/-- Witness for the C4 theorem: non-empty content `[97]` against the
always-failing fragment oracle. -/
theorem parseFragment_error_contract_witness :
    ([97] : List Nat) ≠ [] ∧
    (((ParseFragment none [97] [] [] 0 fragOracleNoneW 1).2.1
        = some XmlError.failParseFragment) ↔
      fragOracleNoneW (ParseFragment.docArg none []).tree
        (fragmentWrapperStart ++ [97] ++ fragmentWrapperEnd)
        (if ([] : List Nat).length > 0 then some ([] : List Nat) else none) 0 = none) ∧
    (fragOracleNoneW (ParseFragment.docArg none []).tree
        (fragmentWrapperStart ++ [97] ++ fragmentWrapperEnd)
        (if ([] : List Nat).length > 0 then some ([] : List Nat) else none) 0 = none →
      (ParseFragment none [97] [] [] 0 fragOracleNoneW 1).1 = none) :=
  ⟨by decide, (parseFragment_error_contract none [97] [] [] 0 fragOracleNoneW 1).2 (by decide)⟩

/-- Witness for the C3 theorem: content `[97]` parsed by the oracle into
synthetic root 10 with child chain 1, 2 in `heapW`. -/
theorem parseFragment_success_children_witness :
    ([97] : List Nat) ≠ [] ∧
    fragOracleW (ParseFragment.docArg none []).tree
      (fragmentWrapperStart ++ [97] ++ fragmentWrapperEnd)
      (if ([] : List Nat).length > 0 then some ([] : List Nat) else none) 0
      = some (10, heapW) ∧
    chainFrom heapW 10 none ((heapW 10).firstChild) [1, 2] ∧
    ((10 : Nat) :: [1, 2]).Nodup ∧
    ([1, 2] : List Nat).length ≤ 2 ∧
    ∃ heap' : Heap,
      ParseFragment none [97] [] [] 0 fragOracleW 2 =
        (some { Children := [1, 2] }, none,
         ([1, 2] : List Nat).flatMap (fun c => [Event.unlinkNode c, Event.collectChild c])
           ++ [Event.freeNode 10], some heap') ∧
      (∀ x ∈ ([1, 2] : List Nat),
        (heap' x).parent = none ∧ (heap' x).prev = none ∧ (heap' x).next = none) ∧
      (heap' 10).firstChild = none ∧
      ∀ p : Nat, Event.trackDetached p ∉
        ([1, 2] : List Nat).flatMap (fun c => [Event.unlinkNode c, Event.collectChild c])
          ++ [Event.freeNode 10] :=
  ⟨by decide, rfl, by decide, by decide, by decide,
   parseFragment_success_children none [97] [] [] 0 fragOracleW 2 10 heapW [1, 2]
     (by decide) rfl (by decide) (by decide) (by decide)⟩

end Gokogiri
